import Mathlib

/-!
# EV Analytics Dashboard — filter-and-aggregate pipeline, verified

Shallow embedding of the data-processing core of `src/frontend/src/App.js`:
the record normalizer (`parseCsvRows`), the filter predicate / filtered-set
builder (`data`), the seven aggregate views (`total`/`uniqueMakes`/`avgRange`/
`cafvPct`, `byYear`, `topMakes`, `typeDist`, `cafvDist`, `rangeHist`, preview),
and the filter-domain deriver (`allStates`, `allTypes`, year bounds).

JavaScript strings are modelled as Lean `String` (per-character operations are
spelled out on `List Char` so that every step is directly inspectable);
JavaScript numbers occurring in the pipeline are integers, modelled as `Int`
(`Number(...)` is modelled on optionally signed decimal integer literals, which
is the shape of every numeric file in the dataset; a non-literal yields `none`,
the embedding of NaN falling to `null` through the `Number.isFinite` gate).
`Array.prototype.sort`, which is stable, is modelled by a stable insertion
sort; a JS `Map`'s first-insertion key order is modelled by `firstDedup`.
-/

namespace EvDash

/-! ## Character/string primitives (models of the JS string operations used) -/

/-- Model of `String.prototype.trim`: drop whitespace from both ends. -/
def trimChars (l : List Char) : List Char :=
  ((l.dropWhile Char.isWhitespace).reverse.dropWhile Char.isWhitespace).reverse

/-- `s.trim()` on a JS string. -/
def strTrim (s : String) : String := ⟨trimChars s.data⟩

/-- `s.toLowerCase()` on a JS string (per-character simple lowercasing;
the dataset is ASCII, where this coincides with the JS Unicode mapping). -/
def lowerStr (s : String) : String := ⟨s.data.map Char.toLower⟩

/-- Auxiliary for `collapseWs`: `prev` records whether the previously emitted
character came from a whitespace run. -/
def collapseWsAux : Bool → List Char → List Char
  | _, [] => []
  | prev, c :: cs =>
    if c.isWhitespace then
      if prev then collapseWsAux true cs else ' ' :: collapseWsAux true cs
    else c :: collapseWsAux false cs

/-- Model of `s.replace(/\s+/g, " ")`: every maximal whitespace run becomes a
single space. -/
def collapseWs (s : String) : String := ⟨collapseWsAux false s.data⟩

/-- `pat` is a prefix of `l` (Boolean, model of the leading-match step of
`String.prototype.includes`). -/
def listStartsWith [DecidableEq α] : List α → List α → Bool
  | [], _ => true
  | _ :: _, [] => false
  | a :: as, b :: bs => decide (a = b) && listStartsWith as bs

/-- `pat` occurs contiguously inside `l` (Boolean). -/
def listHasSub [DecidableEq α] (pat : List α) : List α → Bool
  | [] => pat.isEmpty
  | b :: bs => listStartsWith pat (b :: bs) || listHasSub pat bs

/-- Model of `s.includes(sub)`. -/
def strIncludes (s sub : String) : Bool := listHasSub sub.data s.data

/-! ## Numeric parsing (model of `Number(...)` + the `Number.isFinite` gate) -/

/-- Decimal digits to a natural number. -/
def digitsToNat (l : List Char) : Nat :=
  l.foldl (fun a c => a * 10 + (c.toNat - '0'.toNat)) 0

/-- Model of `Number(s)` restricted to optionally signed decimal integer
literals (the shape of every numeric field of the dataset): leading/trailing
whitespace ignored, empty string is `0`, otherwise an optional sign followed by
digits; anything else is NaN (`none`).  Composed with the source's
`Number.isFinite(x) ? x : null` gate, so `none` is exactly the `null` marker. -/
def jsNumLit (s : String) : Option Int :=
  match trimChars s.data with
  | [] => some 0
  | '-' :: rest =>
    if rest ≠ [] ∧ rest.all Char.isDigit then some (-(digitsToNat rest : Int)) else none
  | '+' :: rest =>
    if rest ≠ [] ∧ rest.all Char.isDigit then some (digitsToNat rest : Int) else none
  | l => if l.all Char.isDigit then some (digitsToNat l : Int) else none

/-- `Number(x)` where `x` came through a `??`-alias chain: `Number(undefined)`
is NaN. -/
def jsNumber : Option String → Option Int
  | none => none
  | some s => jsNumLit s

/-! ## Record normalizer (source: `parseCsvRows`, App.js lines 60–83) -/

/-- A raw parsed CSV row: a mapping from column names to string values
(`none` = column absent, i.e. `undefined`). -/
def RawRow : Type := String → Option String

/-- `r[k₁] ?? r[k₂] ?? …`: first present alias wins. -/
def pick (r : RawRow) : List String → Option String
  | [] => none
  | k :: ks => match r k with
    | some v => some v
    | none => pick r ks

/-- A normalized vehicle record (the output shape of `parseCsvRows`). -/
structure Record where
  year : Option Int
  range : Option Int
  type : String
  make : String
  state : String
  cafv : String
  city : String
  county : String
  deriving DecidableEq, Repr

/-- One row of `parseCsvRows` (App.js 61–82): numeric fields through
`Number` + `isFinite`-gate, string fields through alias pick, default `""`,
trim (plus whitespace-collapse for `type`); `city`/`county` passed through. -/
def parseCsvRow (r : RawRow) : Record :=
  let yr := jsNumber (pick r ["Model Year", "model_year", "modelYear"])
  let rng := jsNumber (pick r ["Electric Range", "electric_range", "range"])
  let ty := strTrim (collapseWs ((pick r ["Electric Vehicle Type", "type"]).getD ""))
  let mke := strTrim ((pick r ["Make", "make"]).getD "")
  let st := strTrim ((pick r ["State", "state"]).getD "")
  let cv := strTrim ((pick r ["Clean Alternative Fuel Vehicle (CAFV) Eligibility", "cafv"]).getD "")
  { year := yr, range := rng, type := ty, make := mke, state := st, cafv := cv,
    city := (r "City").getD "", county := (r "County").getD "" }

/-- `parseCsvRows` (App.js 60–83). -/
def parseCsvRows (rows : List RawRow) : List Record := rows.map parseCsvRow

/-! ## Filter predicate and filtered-set builder (source: `data`, App.js 130–142) -/

/-- The filter parameters (component state `stateFilter`, `typeFilter`,
`yearRange`, `makeQuery`). -/
structure FilterParams where
  stateFilter : String
  typeFilter : String
  yearRange : Int × Int
  makeQuery : String
  deriving DecidableEq, Repr

/-- The body of the `raw.filter(...)` callback in the `data` memo
(App.js 133–141). -/
def filterPred (p : FilterParams) (d : Record) : Bool :=
  let mq := lowerStr (strTrim p.makeQuery)
  (match d.year with
   | some y => !(decide (y < p.yearRange.1) || decide (y > p.yearRange.2))
   | none => true) &&
  !(decide (p.stateFilter ≠ "ALL") && decide (d.state ≠ p.stateFilter)) &&
  !(decide (p.typeFilter ≠ "ALL") && decide (d.type ≠ p.typeFilter)) &&
  !(decide (mq ≠ "") && !(strIncludes (lowerStr d.make) mq))

/-- The filtered working subset (the `data` memo, App.js 130–142). -/
def filteredData (p : FilterParams) (raw : List Record) : List Record :=
  raw.filter (filterPred p)

/-! ## Shared aggregation machinery -/

/-- `Math.round(a / b)` for integers `a` and `b > 0`, i.e. `⌊a/b + 1/2⌋`,
computed on integers (JS `Math.round` rounds half toward `+∞`; `/` on `Int`
is Euclidean division, which is floor division for a positive divisor). -/
def roundDiv (a b : Int) : Int := (2 * a + b) / (2 * b)

/-- First-encounter deduplication: the key order of a JS `Map` / `Set` built
by insertion (first insertion fixes the position; later duplicates of an
earlier element are dropped). -/
def firstDedup [DecidableEq α] : List α → List α
  | [] => []
  | x :: xs => x :: (firstDedup xs).filter (fun y => decide (y ≠ x))

/-- One step of the counting loop `map.set(k, (map.get(k) || 0) + 1)`
over a JS `Map` held as an association list in insertion order. -/
def bumpKey [DecidableEq α] (acc : List (α × Nat)) (k : α) : List (α × Nat) :=
  if acc.any (fun p => decide (p.1 = k)) then
    acc.map (fun p => if p.1 = k then (p.1, p.2 + 1) else p)
  else acc ++ [(k, 1)]

/-- `Array.from(map.entries())` after the counting `forEach` loop: keys in
first-insertion order, each with its occurrence count. -/
def countByKey [DecidableEq α] (l : List α) : List (α × Nat) := l.foldl bumpKey []

/-- Stable insertion step: place `x` before the first element `y` with
`le x y`. -/
def insertLe (le : α → α → Bool) (x : α) : List α → List α
  | [] => [x]
  | y :: ys => if le x y then x :: y :: ys else y :: insertLe le x ys

/-- Stable sort by `le` (model of `Array.prototype.sort` with a consistent
comparator, which the ECMAScript standard requires to be stable): equal
elements keep their original relative order. -/
def sortLe (le : α → α → Bool) (l : List α) : List α := l.foldr (insertLe le) []

/-- Sum of the counts of a keyed counts list. -/
def sumVals (l : List (α × Nat)) : Nat := (l.map Prod.snd).sum

/-! ## Summary counters (App.js 145–155) -/

/-- `total` KPI: `data.length`. -/
def total (data : List Record) : Nat := data.length

/-- `uniqueMakes` KPI: `new Set(data.map(d => d.make).filter(Boolean)).size`. -/
def uniqueMakes (data : List Record) : Nat :=
  (firstDedup ((data.map Record.make).filter (fun s => s != ""))).length

/-- The `ranges` intermediate:
`data.map(d => d.range).filter(x => Number.isFinite(x) && x > 0)`. -/
def posRanges (data : List Record) : List Int :=
  (data.filterMap Record.range).filter (fun r => decide (0 < r))

/-- `avgRange` KPI: rounded mean of the positive present ranges, `0` if none. -/
def avgRange (data : List Record) : Int :=
  let rs := posRanges data
  if rs.isEmpty then 0 else roundDiv rs.sum rs.length

/-- The `/Eligible/i.test(d.cafv)` check: case-insensitive substring search. -/
def cafvEligible (d : Record) : Bool := strIncludes (lowerStr d.cafv) "eligible"

/-- `cafvPct` KPI: `total ? Math.round(eligible.length / total * 100) : 0`. -/
def cafvPct (data : List Record) : Int :=
  if data.length = 0 then 0
  else roundDiv ((data.filter cafvEligible).length * 100) data.length

/-! ## Year series (App.js 158–167) -/

/-- `byYear`: count per present model year, then
`.sort((a, b) => a[0] - b[0])` (ascending by year). -/
def byYear (data : List Record) : List (Int × Nat) :=
  sortLe (fun a b => decide (a.1 ≤ b.1)) (countByKey (data.filterMap Record.year))

/-! ## Top-10 makes (App.js 170–180) -/

/-- Descending-by-count comparator of `.sort((a, b) => b[1] - a[1])`:
`a` may stay before `b` iff `b.2 ≤ a.2`. -/
def leCount (a b : α × Nat) : Bool := decide (b.2 ≤ a.2)

/-- `topMakes`: count per non-empty make, stable-sorted descending by count,
first 10 kept. -/
def topMakes (data : List Record) : List (String × Nat) :=
  (sortLe leCount (countByKey ((data.map Record.make).filter (fun s => s != "")))).take 10

/-! ## Type distribution (App.js 183–190) -/

/-- The grouping key `d.type || "Unknown"`. -/
def typeKey (d : Record) : String := if d.type = "" then "Unknown" else d.type

/-- `typeDist`: count per type key, in first-encounter (Map insertion) order. -/
def typeDist (data : List Record) : List (String × Nat) :=
  countByKey (data.map typeKey)

/-! ## CAFV eligibility distribution (App.js 193–206) -/

/-- The grouping key `d.cafv || "Unknown"`. -/
def cafvKey (d : Record) : String := if d.cafv = "" then "Unknown" else d.cafv

/-- `cafvDist`: count per CAFV key, sorted descending by count; top 4 kept
verbatim, the remaining counts summed into a final `"Other"` entry appended
only when that sum is positive. -/
def cafvDist (data : List Record) : List (String × Nat) :=
  let sorted := sortLe leCount (countByKey (data.map cafvKey))
  let top := sorted.take 4
  let rest := sumVals (sorted.drop 4)
  top ++ (if 0 < rest then [("Other", rest)] else [])

/-! ## Electric-range histogram (App.js 209–230) -/

/-- One histogram bin: label, lower bound, upper bound (`none` = `Infinity`). -/
structure Bin where
  label : String
  lo : Int
  hi : Option Int
  deriving DecidableEq, Repr

/-- The six fixed bins of the source. -/
def rangeBins : List Bin :=
  [⟨"0", 0, some 0⟩, ⟨"1–50", 1, some 50⟩, ⟨"51–100", 51, some 100⟩,
   ⟨"101–200", 101, some 200⟩, ⟨"201–300", 201, some 300⟩, ⟨"301+", 301, none⟩]

/-- `r >= b.min && r <= b.max` (with `r <= Infinity` always true). -/
def inBin (b : Bin) (r : Int) : Bool :=
  decide (b.lo ≤ r) && (match b.hi with | some h => decide (r ≤ h) | none => true)

/-- The inner `for … break` of the histogram loop: increment the first bin the
value falls in, leave the rest untouched. -/
def addToFirstBin (counts : List (Bin × Nat)) (r : Int) : List (Bin × Nat) :=
  match counts with
  | [] => []
  | (b, c) :: rest =>
    if inBin b r then (b, c + 1) :: rest else (b, c) :: addToFirstBin rest r

/-- `rangeHist`: fold the records through the first-matching-bin counter
(skipping absent ranges), then project to `(label, count)` pairs. -/
def rangeHist (data : List Record) : List (String × Nat) :=
  (data.foldl
      (fun counts d => match d.range with
        | none => counts
        | some r => addToFirstBin counts r)
      (rangeBins.map (fun b => (b, 0)))).map (fun p => (p.1.label, p.2))

/-! ## Preview rows (App.js 508: `data.slice(0, 20)`) -/

/-- The data-snapshot table body: first 20 records of the working subset. -/
def previewRows (data : List Record) : List Record := data.take 20

/-! ## Filter-domain deriver (App.js 232–240 and 93–97) -/

/-- Lexicographic comparison of JS strings as character lists: the default
`Array.prototype.sort` comparator compares elements as strings, code unit by
code unit (the dataset is ASCII, where code-unit and code-point order agree). -/
def charListLe : List Char → List Char → Bool
  | [], _ => true
  | _ :: _, [] => false
  | a :: as, b :: bs =>
    if a < b then true
    else if b < a then false
    else charListLe as bs

/-- `a` sorts no later than `b` under the JS default string comparator. -/
def strLeB (a b : String) : Bool := charListLe a.data b.data

/-- `allStates`: `"ALL"` followed by the distinct non-empty states of the
*unfiltered* collection, sorted. -/
def allStates (raw : List Record) : List String :=
  "ALL" :: sortLe strLeB
    (firstDedup ((raw.map Record.state).filter (fun s => s != "")))

/-- `allTypes`: `"ALL"` followed by the distinct non-empty types of the
*unfiltered* collection, sorted. -/
def allTypes (raw : List Record) : List String :=
  "ALL" :: sortLe strLeB
    (firstDedup ((raw.map Record.type).filter (fun s => s != "")))

/-- The year bounds computed on load (App.js 93–96): `[min, max]` of the
present years, `[2010, 2025]` when no record has a parsable year. -/
def yearBounds (raw : List Record) : Int × Int :=
  match raw.filterMap Record.year with
  | [] => (2010, 2025)
  | y :: ys => (ys.foldl min y, ys.foldl max y)

/-! ## Spec-side definitions (written from the claims' words, for refinement) -/

/-- The Filter Predicate as the specification states it: a present year must
lie within `[yearRange.min, yearRange.max]` inclusive (an absent year passes);
a non-wildcard state/type filter must match exactly; a non-empty trimmed make
query, lowercased, must occur as a substring of the lowercased make. -/
def FilterPredSpec (p : FilterParams) (d : Record) : Prop :=
  (match d.year with
   | some y => p.yearRange.1 ≤ y ∧ y ≤ p.yearRange.2
   | none => True) ∧
  (p.stateFilter ≠ "ALL" → d.state = p.stateFilter) ∧
  (p.typeFilter ≠ "ALL" → d.type = p.typeFilter) ∧
  (strTrim p.makeQuery ≠ "" →
    (lowerStr (strTrim p.makeQuery)).data <:+: (lowerStr d.make).data)

instance (p : FilterParams) (d : Record) : Decidable (FilterPredSpec p d) := by
  unfold FilterPredSpec
  cases d.year <;> exact instDecidableAnd

/-- The per-`Map`-entry view of keyed counting, spec side: the distinct keys
in first-encounter order, each paired with its number of occurrences. -/
def keyCounts [DecidableEq α] (d : List α) : List (α × Nat) :=
  (firstDedup d).map (fun k => (k, d.count k))

/-! ## Sample records (concrete instantiation data) -/

/-- A 2018 BEV registration in WA, range 45, CAFV-eligible. -/
def sampleA : Record :=
  ⟨some 2018, some 45, "Battery Electric Vehicle (BEV)", "Tesla", "WA",
   "Clean Alternative Fuel Vehicle Eligible", "Seattle", "King"⟩

/-- A 2020 PHEV registration in CA, range 45, empty CAFV text. -/
def sampleB : Record :=
  ⟨some 2020, some 45, "Plug-in Hybrid Electric Vehicle (PHEV)", "Nissan",
   "CA", "", "", ""⟩

/-- A record with absent year and absent range, all strings empty. -/
def sampleC : Record := ⟨none, none, "", "", "", "", "", ""⟩

/-- A record whose source range was negative: the normalizer keeps `-1`. -/
def sampleNeg : Record := ⟨some 2019, some (-1), "BEV", "Kia", "CA", "x", "", ""⟩

/-- The wildcard filter parameters (everything passes). -/
def paramsAll : FilterParams := ⟨"ALL", "ALL", (2010, 2025), ""⟩

/-- The scenario parameters of the spec: `yearRange = [2018, 2020]`,
wildcards elsewhere. -/
def paramsScen : FilterParams := ⟨"ALL", "ALL", (2018, 2020), ""⟩

/-- `stateFilter = "WA"` over a dataset with no WA record. -/
def paramsWA : FilterParams := ⟨"WA", "ALL", (2010, 2025), ""⟩

/-! ## Lemmas: substring search -/

theorem listStartsWith_iff [DecidableEq α] :
    ∀ {pat l : List α}, listStartsWith pat l = true ↔ pat <+: l
  | [], l => by simp [listStartsWith]
  | a :: as, [] => by simp [listStartsWith]
  | a :: as, b :: bs => by
    simp [listStartsWith, @listStartsWith_iff _ _ as bs,
      List.cons_prefix_cons]

theorem listHasSub_iff [DecidableEq α] :
    ∀ {pat l : List α}, listHasSub pat l = true ↔ pat <:+: l
  | pat, [] => by simp [listHasSub, List.isEmpty_iff]
  | pat, b :: bs => by
    rw [listHasSub]
    simp [listStartsWith_iff, @listHasSub_iff _ _ pat bs,
      List.infix_cons_iff]

theorem strIncludes_iff {s sub : String} :
    strIncludes s sub = true ↔ sub.data <:+: s.data :=
  listHasSub_iff

/-! ## Lemmas: first-encounter dedup -/

theorem mem_firstDedup [DecidableEq α] {a : α} :
    ∀ {l : List α}, a ∈ firstDedup l ↔ a ∈ l
  | [] => by simp [firstDedup]
  | x :: xs => by
    rw [firstDedup]
    simp only [List.mem_cons, List.mem_filter, decide_eq_true_eq,
      mem_firstDedup (l := xs)]
    by_cases hax : a = x
    · simp [hax]
    · simp [hax]

theorem nodup_firstDedup [DecidableEq α] : ∀ l : List α, (firstDedup l).Nodup
  | [] => by simp [firstDedup]
  | x :: xs => by
    rw [firstDedup]
    refine List.nodup_cons.2 ⟨fun hx => ?_, (nodup_firstDedup xs).filter _⟩
    have := (List.mem_filter.1 hx).2
    simp at this

theorem firstDedup_append_singleton [DecidableEq α] (x : α) :
    ∀ l : List α, firstDedup (l ++ [x]) =
      if x ∈ l then firstDedup l else firstDedup l ++ [x]
  | [] => by simp [firstDedup]
  | y :: ys => by
    rw [List.cons_append, firstDedup, firstDedup_append_singleton x ys]
    by_cases hxy : x = y
    · subst hxy
      by_cases hxys : x ∈ ys
      · rw [if_pos hxys, if_pos (by simp), firstDedup]
      · rw [if_neg hxys, if_pos (by simp), firstDedup, List.filter_append]
        have hfx : List.filter (fun z => decide (z ≠ x)) [x] = [] := by simp
        rw [hfx, List.append_nil]
    · by_cases hxys : x ∈ ys
      · rw [if_pos hxys, if_pos (by simp [hxys]), firstDedup]
      · rw [if_neg hxys, if_neg (by simp [hxy, hxys]), firstDedup,
          List.filter_append]
        have hfx : List.filter (fun z => decide (z ≠ y)) [x] = [x] := by
          simp [hxy]
        rw [hfx, List.cons_append]

/-! ## Lemmas: keyed counting -/

theorem bumpKey_keyCounts [DecidableEq α] (done : List α) (x : α) :
    bumpKey (keyCounts done) x = keyCounts (done ++ [x]) := by
  have hany : ((keyCounts done).any fun p => decide (p.1 = x)) = true ↔ x ∈ done := by
    simp only [keyCounts, List.any_eq_true, decide_eq_true_eq]
    constructor
    · rintro ⟨q, hq, hqx⟩
      rcases List.mem_map.1 hq with ⟨k, hk, rfl⟩
      exact hqx ▸ mem_firstDedup.1 hk
    · intro hx
      exact ⟨(x, done.count x), List.mem_map.2 ⟨x, mem_firstDedup.2 hx, rfl⟩, rfl⟩
  by_cases hx : x ∈ done
  · rw [bumpKey, if_pos (hany.2 hx)]
    rw [keyCounts, keyCounts, firstDedup_append_singleton, if_pos hx, List.map_map]
    refine List.map_congr_left fun k _ => ?_
    by_cases hkx : k = x
    · subst hkx
      simp [List.count_append, List.count_singleton]
    · simp [Function.comp, hkx, List.count_append, List.count_singleton,
        Ne.symm hkx]
  · rw [bumpKey, if_neg (fun h => hx (hany.1 h))]
    rw [keyCounts, keyCounts, firstDedup_append_singleton, if_neg hx,
      List.map_append]
    congr 1
    · refine List.map_congr_left fun k hk => ?_
      have hkdone : k ∈ done := mem_firstDedup.1 hk
      have hkx : x ≠ k := fun h => hx (h ▸ hkdone)
      simp [List.count_append, List.count_singleton, hkx]
    · simp [List.count_append, List.count_singleton_self,
        List.count_eq_zero_of_not_mem hx]

theorem foldl_bumpKey [DecidableEq α] :
    ∀ (rest done : List α),
      List.foldl bumpKey (keyCounts done) rest = keyCounts (done ++ rest)
  | [], done => by rw [List.foldl_nil, List.append_nil]
  | x :: rest, done => by
    rw [List.foldl_cons, bumpKey_keyCounts, foldl_bumpKey rest (done ++ [x]),
      List.append_assoc]
    rfl

theorem countByKey_eq_keyCounts [DecidableEq α] (l : List α) :
    countByKey l = keyCounts l := by
  have h0 : keyCounts ([] : List α) = [] := by simp [keyCounts, firstDedup]
  calc countByKey l = List.foldl bumpKey (keyCounts []) l := by rw [h0]; rfl
    _ = keyCounts ([] ++ l) := foldl_bumpKey l []
    _ = keyCounts l := by rw [List.nil_append]

theorem keys_countByKey [DecidableEq α] (l : List α) :
    (countByKey l).map Prod.fst = firstDedup l := by
  rw [countByKey_eq_keyCounts, keyCounts, List.map_map]
  have hcomp : (Prod.fst ∘ fun k : α => (k, l.count k)) = id := rfl
  rw [hcomp, List.map_id]

theorem mem_countByKey_iff [DecidableEq α] {l : List α} {k : α} {v : Nat} :
    (k, v) ∈ countByKey l ↔ k ∈ l ∧ v = l.count k := by
  rw [countByKey_eq_keyCounts, keyCounts, List.mem_map]
  constructor
  · rintro ⟨k', hk', h⟩
    obtain ⟨rfl, rfl⟩ : k' = k ∧ l.count k' = v := by
      constructor <;> [exact congrArg Prod.fst h; exact congrArg Prod.snd h]
    exact ⟨mem_firstDedup.1 hk', rfl⟩
  · rintro ⟨hk, rfl⟩
    exact ⟨k, mem_firstDedup.2 hk, rfl⟩

theorem sum_over_filter_ne [DecidableEq α] (f : α → Nat) (x : α) :
    ∀ {l : List α}, l.Nodup →
      ((l.filter fun y => decide (y ≠ x)).map f).sum + (if x ∈ l then f x else 0)
        = (l.map f).sum
  | [], _ => by simp
  | a :: l, h => by
    rcases List.nodup_cons.1 h with ⟨hal, hnd⟩
    have ih := sum_over_filter_ne f x hnd
    by_cases hax : a = x
    · subst hax
      have hfa : List.filter (fun y => decide (y ≠ a)) (a :: l) =
          List.filter (fun y => decide (y ≠ a)) l := by
        simp [List.filter_cons]
      have hfl : List.filter (fun y => decide (y ≠ a)) l = l :=
        List.filter_eq_self.2 fun b hb => by
          simp only [decide_eq_true_eq]
          exact fun hba => hal (hba ▸ hb)
      rw [hfa, hfl, if_pos (by simp), List.map_cons, List.sum_cons]
      omega
    · have hax' : x ∈ a :: l ↔ x ∈ l := by
        rw [List.mem_cons]
        constructor
        · rintro (h | hh)
          · exact absurd h.symm hax
          · exact hh
        · exact Or.inr
      have hfa : List.filter (fun y => decide (y ≠ x)) (a :: l) =
          a :: List.filter (fun y => decide (y ≠ x)) l := by
        simp [List.filter_cons, hax]
      rw [hfa, List.map_cons, List.sum_cons, List.map_cons, List.sum_cons]
      by_cases hxl : x ∈ l
      · rw [if_pos (hax'.2 hxl)]
        rw [if_pos hxl] at ih
        omega
      · rw [if_neg (fun hh => hxl (hax'.1 hh))]
        rw [if_neg hxl] at ih
        omega

theorem sum_counts_firstDedup [DecidableEq α] :
    ∀ l : List α, ((firstDedup l).map (fun k => l.count k)).sum = l.length
  | [] => by simp [firstDedup]
  | x :: xs => by
    have ih := sum_counts_firstDedup xs
    rw [firstDedup, List.map_cons, List.sum_cons, List.count_cons_self]
    have hcongr :
        ((firstDedup xs).filter fun y => decide (y ≠ x)).map
            (fun k => (x :: xs).count k) =
          ((firstDedup xs).filter fun y => decide (y ≠ x)).map
            (fun k => xs.count k) := by
      refine List.map_congr_left fun k hk => ?_
      have hkx : k ≠ x := by
        have := (List.mem_filter.1 hk).2
        simpa using this
      rw [List.count_cons_of_ne hkx]
    rw [hcongr, List.length_cons]
    have hsplit := sum_over_filter_ne (fun k => xs.count k) x (nodup_firstDedup xs)
    simp only [] at hsplit
    by_cases hx : x ∈ xs
    · rw [if_pos (mem_firstDedup.2 hx)] at hsplit
      omega
    · rw [if_neg (fun hh => hx (mem_firstDedup.1 hh))] at hsplit
      rw [List.count_eq_zero_of_not_mem hx]
      omega

theorem sumVals_countByKey [DecidableEq α] (l : List α) :
    sumVals (countByKey l) = l.length := by
  rw [countByKey_eq_keyCounts, keyCounts, sumVals, List.map_map]
  have hcomp : (Prod.snd ∘ fun k : α => (k, l.count k)) = fun k => l.count k := rfl
  rw [hcomp, sum_counts_firstDedup]

/-! ## Lemmas: stable insertion sort -/

theorem perm_insertLe (le : α → α → Bool) (x : α) :
    ∀ l : List α, List.Perm (insertLe le x l) (x :: l)
  | [] => List.Perm.refl _
  | y :: ys => by
    rw [insertLe]
    by_cases h : le x y
    · rw [if_pos h]
    · rw [if_neg h]
      exact ((perm_insertLe le x ys).cons y).trans (List.Perm.swap x y ys)

theorem perm_sortLe (le : α → α → Bool) :
    ∀ l : List α, List.Perm (sortLe le l) l
  | [] => List.Perm.refl _
  | x :: l =>
    (perm_insertLe le x (sortLe le l)).trans ((perm_sortLe le l).cons x)

theorem mem_insertLe {le : α → α → Bool} {x z : α} {l : List α} :
    z ∈ insertLe le x l ↔ z = x ∨ z ∈ l := by
  rw [(perm_insertLe le x l).mem_iff, List.mem_cons]

theorem pairwise_insertLe {le : α → α → Bool}
    (htot : ∀ a b, le a b = true ∨ le b a = true)
    (htrans : ∀ a b c, le a b = true → le b c = true → le a c = true)
    (x : α) :
    ∀ {l : List α}, l.Pairwise (fun a b => le a b = true) →
      (insertLe le x l).Pairwise (fun a b => le a b = true)
  | [], _ => by simp [insertLe]
  | y :: ys, hp => by
    rcases List.pairwise_cons.1 hp with ⟨hy, hys⟩
    rw [insertLe]
    by_cases h : le x y
    · rw [if_pos h]

      exact List.pairwise_cons.2 ⟨fun z hz => by
        rcases List.mem_cons.1 hz with rfl | hz
        · exact h
        · exact htrans x y z h (hy z hz), hp⟩
    · rw [if_neg h]
      refine List.pairwise_cons.2 ⟨fun z hz => ?_, pairwise_insertLe htot htrans x hys⟩
      rcases mem_insertLe.1 hz with rfl | hz
      · rcases htot y z with hyz | hzy
        · exact hyz
        · exact absurd hzy (by simpa using h)
      · exact hy z hz

theorem pairwise_sortLe {le : α → α → Bool}
    (htot : ∀ a b, le a b = true ∨ le b a = true)
    (htrans : ∀ a b c, le a b = true → le b c = true → le a c = true) :
    ∀ l : List α, (sortLe le l).Pairwise (fun a b => le a b = true)
  | [] => List.Pairwise.nil
  | x :: l => pairwise_insertLe htot htrans x (pairwise_sortLe htot htrans l)

theorem filter_insertLe_neg {le : α → α → Bool} {p : α → Bool} {x : α}
    (hpx : p x = false) :
    ∀ l : List α, (insertLe le x l).filter p = l.filter p
  | [] => by simp [insertLe, hpx]
  | y :: ys => by
    rw [insertLe]
    by_cases h : le x y
    · rw [if_pos h]
      simp [List.filter_cons, hpx]
    · rw [if_neg h]
      simp only [List.filter_cons, filter_insertLe_neg hpx ys]

theorem filter_insertLe_pos {le : α → α → Bool} {p : α → Bool} {x : α}
    (hpx : p x = true) (hblock : ∀ y, p y = true → le x y = true) :
    ∀ l : List α, (insertLe le x l).filter p = x :: l.filter p
  | [] => by simp [insertLe, hpx]
  | y :: ys => by
    rw [insertLe]
    by_cases h : le x y
    · rw [if_pos h]
      simp [List.filter_cons, hpx]
    · rw [if_neg h]
      have hpy : p y = false := by
        cases hy : p y
        · rfl
        · exact absurd (hblock y hy) (by simpa using h)
      simp only [List.filter_cons, hpy, filter_insertLe_pos hpx hblock ys]
      simp

theorem filter_sortLe {le : α → α → Bool} {p : α → Bool}
    (hp : ∀ a b, p a = true → p b = true → le a b = true) :
    ∀ l : List α, (sortLe le l).filter p = l.filter p
  | [] => rfl
  | x :: l => by
    have hstep : sortLe le (x :: l) = insertLe le x (sortLe le l) := rfl
    rw [hstep]
    by_cases hpx : p x
    · rw [filter_insertLe_pos hpx (fun y hy => hp x y hpx hy) (sortLe le l),
        filter_sortLe hp l, List.filter_cons, if_pos hpx]
    · rw [filter_insertLe_neg (by simpa using hpx) (sortLe le l),
        filter_sortLe hp l, List.filter_cons]
      simp [hpx]

/-! ## Lemmas: assorted list facts -/

theorem filter_take_isPre (p : α → Bool) (n : Nat) (l : List α) :
    (l.take n).filter p <+: l.filter p :=
  ⟨(l.drop n).filter p, by rw [← List.filter_append, List.take_append_drop]⟩

theorem length_filterMap_eq_iff {f : α → Option β} :
    ∀ {l : List α}, (l.filterMap f).length = l.length ↔ ∀ a ∈ l, f a ≠ none
  | [] => by simp
  | a :: l => by
    have hle := List.length_filterMap_le f l
    have ih := length_filterMap_eq_iff (f := f) (l := l)
    cases hfa : f a with
    | none =>
      rw [List.filterMap_cons_none hfa]
      refine iff_of_false (fun h => ?_) (fun h => (h a (by simp) hfa).elim)
      rw [List.length_cons] at h
      omega
    | some b =>
      rw [List.filterMap_cons_some hfa, List.length_cons, List.length_cons]
      constructor
      · intro h a' ha'
        rcases List.mem_cons.1 ha' with rfl | ha'
        · simp [hfa]
        · exact ih.1 (by omega) a' ha'
      · intro h
        have h2 := ih.2 (fun a' ha' => h a' (List.mem_cons.2 (Or.inr ha')))
        omega

theorem foldl_min_le (l : List Int) :
    ∀ y : Int, l.foldl min y ≤ y ∧ ∀ z ∈ l, l.foldl min y ≤ z := by
  induction l with
  | nil => exact fun y => ⟨le_refl y, by simp⟩
  | cons a l ih =>
    intro y
    rcases ih (min y a) with ⟨h1, h2⟩
    refine ⟨le_trans h1 (min_le_left y a), fun z hz => ?_⟩
    rcases List.mem_cons.1 hz with rfl | hz
    · exact le_trans h1 (min_le_right y z)
    · exact h2 z hz

theorem foldl_max_le (l : List Int) :
    ∀ y : Int, y ≤ l.foldl max y ∧ ∀ z ∈ l, z ≤ l.foldl max y := by
  induction l with
  | nil => exact fun y => ⟨le_refl y, by simp⟩
  | cons a l ih =>
    intro y
    rcases ih (max y a) with ⟨h1, h2⟩
    refine ⟨le_trans (le_max_left y a) h1, fun z hz => ?_⟩
    rcases List.mem_cons.1 hz with rfl | hz
    · exact le_trans (le_max_right y z) h1
    · exact h2 z hz

theorem foldl_min_mem (l : List Int) : ∀ y : Int, l.foldl min y ∈ y :: l := by
  induction l with
  | nil => intro y; simp
  | cons a l ih =>
    intro y
    rw [List.foldl_cons]
    rcases List.mem_cons.1 (ih (min y a)) with h | h
    · rw [h]
      rcases min_choice y a with hc | hc <;> rw [hc]
      · exact List.mem_cons_self _ _
      · exact List.mem_cons.2 (Or.inr (List.mem_cons_self _ _))
    · exact List.mem_cons.2 (Or.inr (List.mem_cons.2 (Or.inr h)))

theorem foldl_max_mem (l : List Int) : ∀ y : Int, l.foldl max y ∈ y :: l := by
  induction l with
  | nil => intro y; simp
  | cons a l ih =>
    intro y
    rw [List.foldl_cons]
    rcases List.mem_cons.1 (ih (max y a)) with h | h
    · rw [h]
      rcases max_choice y a with hc | hc <;> rw [hc]
      · exact List.mem_cons_self _ _
      · exact List.mem_cons.2 (Or.inr (List.mem_cons_self _ _))
    · exact List.mem_cons.2 (Or.inr (List.mem_cons.2 (Or.inr h)))

/-! ## Lemmas: integer rounding -/

theorem roundDiv_eq_round {a b : Int} (hb : 0 < b) :
    roundDiv a b = round ((a : ℚ) / (b : ℚ)) := by
  rw [round_eq]
  have hbq : (0 : ℚ) < (b : ℚ) := by exact_mod_cast hb
  have h1 : (a : ℚ) / (b : ℚ) + 1 / 2 = ((2 * a + b : Int) : ℚ) / ((2 * b : Int) : ℚ) := by
    push_cast
    field_simp
    ring
  rw [h1]
  have hd : ((2 * b).toNat : Int) = 2 * b := Int.toNat_of_nonneg (by omega)
  have h2 : ((2 * b : Int) : ℚ) = (((2 * b).toNat : ℕ) : ℚ) := by
    exact_mod_cast congrArg (fun z : Int => (z : ℚ)) hd.symm
  rw [h2, Rat.floor_intCast_div_natCast, hd, roundDiv]

/-! ## Lemmas: range-histogram machinery -/

theorem sumVals_cons (x : α × Nat) (l : List (α × Nat)) :
    sumVals (x :: l) = x.2 + sumVals l := rfl

theorem map_fst_addToFirstBin (r : Int) :
    ∀ counts : List (Bin × Nat),
      (addToFirstBin counts r).map Prod.fst = counts.map Prod.fst
  | [] => rfl
  | (b, c) :: rest => by
    rw [addToFirstBin]
    by_cases h : inBin b r
    · rw [if_pos h]
      rfl
    · rw [if_neg h, List.map_cons, List.map_cons, map_fst_addToFirstBin r rest]

theorem sumVals_addToFirstBin (r : Int) :
    ∀ counts : List (Bin × Nat),
      sumVals (addToFirstBin counts r) =
        sumVals counts + (if (counts.any fun p => inBin p.1 r) then 1 else 0)
  | [] => rfl
  | (b, c) :: rest => by
    rw [addToFirstBin]
    by_cases h : inBin b r
    · rw [if_pos h, sumVals_cons, sumVals_cons]
      have hany : (((b, c) :: rest).any fun p => inBin p.1 r) = true := by
        simp [List.any_cons, h]
      rw [hany]
      simp only [if_true]
      omega
    · rw [if_neg h, sumVals_cons, sumVals_cons, sumVals_addToFirstBin r rest]
      have h' : inBin b r = false := by simpa using h
      rw [List.any_cons]
      show c + (sumVals rest + _) = c + sumVals rest + _
      rw [h', Bool.false_or]
      omega

theorem rangeBins_any_iff (r : Int) :
    ((rangeBins.any fun b => inBin b r) = true) ↔ 0 ≤ r := by
  simp [rangeBins, inBin]
  omega

theorem rangeBins_any_eq (r : Int) :
    (rangeBins.any fun b => inBin b r) = decide (0 ≤ r) := by
  by_cases h0 : 0 ≤ r
  · rw [decide_eq_true h0]
    exact (rangeBins_any_iff r).2 h0
  · rw [decide_eq_false h0]
    exact Bool.eq_false_iff.2 fun h => h0 ((rangeBins_any_iff r).1 h)

theorem any_map_general (f : β → γ) (p : γ → Bool) :
    ∀ l : List β, (l.map f).any p = l.any (p ∘ f)
  | [] => rfl
  | x :: l => by
    rw [List.map_cons, List.any_cons, List.any_cons, any_map_general f p l]
    rfl

theorem any_inBin_of_fst {init : List (Bin × Nat)}
    (hinit : init.map Prod.fst = rangeBins) (r : Int) :
    (init.any fun p => inBin p.1 r) = decide (0 ≤ r) :=
  calc (init.any fun p => inBin p.1 r)
      = (init.map Prod.fst).any (fun b => inBin b r) := by
        rw [any_map_general]
        rfl
    _ = rangeBins.any (fun b => inBin b r) := by rw [hinit]
    _ = decide (0 ≤ r) := rangeBins_any_eq r

theorem map_fst_foldl_addToFirstBin :
    ∀ (ranges : List Int) (init : List (Bin × Nat)),
      (ranges.foldl addToFirstBin init).map Prod.fst = init.map Prod.fst
  | [], _ => rfl
  | r :: rs, init => by
    rw [List.foldl_cons, map_fst_foldl_addToFirstBin rs _,
      map_fst_addToFirstBin]

theorem sumVals_foldl_addToFirstBin :
    ∀ (ranges : List Int) (init : List (Bin × Nat)),
      init.map Prod.fst = rangeBins →
      sumVals (ranges.foldl addToFirstBin init) =
        sumVals init + ranges.countP (fun r => decide (0 ≤ r))
  | [], _, _ => by simp
  | r :: rs, init, hinit => by
    rw [List.foldl_cons,
      sumVals_foldl_addToFirstBin rs _ (by rw [map_fst_addToFirstBin, hinit]),
      sumVals_addToFirstBin, any_inBin_of_fst hinit, List.countP_cons]
    cases h0 : decide (0 ≤ r) <;> simp [h0] <;> omega

theorem foldl_records_eq_foldl_ranges :
    ∀ (data : List Record) (init : List (Bin × Nat)),
      data.foldl
          (fun counts d => match d.range with
            | none => counts
            | some r => addToFirstBin counts r) init
        = (data.filterMap Record.range).foldl addToFirstBin init
  | [], _ => rfl
  | d :: data, init => by
    cases hd : d.range with
    | none =>
      rw [List.foldl_cons, List.filterMap_cons_none hd]
      simp only [hd]
      exact foldl_records_eq_foldl_ranges data init
    | some r =>
      rw [List.foldl_cons, List.filterMap_cons_some hd, List.foldl_cons]
      simp only [hd]
      exact foldl_records_eq_foldl_ranges data (addToFirstBin init r)

theorem labels_rangeHist (data : List Record) :
    (rangeHist data).map Prod.fst =
      ["0", "1–50", "51–100", "101–200", "201–300", "301+"] := by
  rw [rangeHist, List.map_map, foldl_records_eq_foldl_ranges]
  have h1 : (Prod.fst ∘ fun p : Bin × Nat => (p.1.label, p.2))
      = (Bin.label ∘ Prod.fst) := rfl
  rw [h1, ← List.map_map, map_fst_foldl_addToFirstBin]
  rfl

theorem sumVals_rangeHist (data : List Record) :
    sumVals (rangeHist data) =
      (data.filterMap Record.range).countP (fun r => decide (0 ≤ r)) := by
  rw [rangeHist, foldl_records_eq_foldl_ranges]
  have hmapsum : ∀ lst : List (Bin × Nat),
      sumVals (lst.map fun p => (p.1.label, p.2)) = sumVals lst := by
    intro lst
    rw [sumVals, sumVals, List.map_map]
    rfl
  rw [hmapsum,
    sumVals_foldl_addToFirstBin _ _ (by rfl)]
  have h0 : sumVals (rangeBins.map fun b => (b, 0)) = 0 := rfl
  rw [h0, Nat.zero_add]

/-! ## Lemmas: the JS string comparator -/

theorem charListLe_total : ∀ as bs : List Char,
    charListLe as bs = true ∨ charListLe bs as = true
  | [], _ => Or.inl rfl
  | _ :: _, [] => Or.inr rfl
  | a :: as, b :: bs => by
    rw [charListLe, charListLe]
    by_cases hab : a < b
    · exact Or.inl (by simp only [if_pos hab])
    · by_cases hba : b < a
      · exact Or.inr (by simp only [if_pos hba])
      · simp only [if_neg hab, if_neg hba]
        exact charListLe_total as bs

theorem charListLe_trans : ∀ as bs cs : List Char,
    charListLe as bs = true → charListLe bs cs = true → charListLe as cs = true
  | [], _, _ => fun _ _ => rfl
  | _ :: _, [], _ => fun h _ => by simp [charListLe] at h
  | _ :: _, _ :: _, [] => fun _ h => by simp [charListLe] at h
  | a :: as, b :: bs, c :: cs => fun h1 h2 => by
    rw [charListLe] at h1 h2 ⊢
    by_cases hab : a < b
    · by_cases hbc : b < c
      · simp only [if_pos (lt_trans hab hbc)]
      · by_cases hcb : c < b
        · simp only [if_neg hbc, if_pos hcb] at h2
          exact absurd h2 (by simp)
        · have hbc' : b = c := le_antisymm (not_lt.1 hcb) (not_lt.1 hbc)
          subst hbc'
          simp only [if_pos hab]
    · by_cases hba : b < a
      · simp only [if_neg hab, if_pos hba] at h1
        exact absurd h1 (by simp)
      · have hab' : a = b := le_antisymm (not_lt.1 hba) (not_lt.1 hab)
        subst hab'
        simp only [if_neg hab, if_neg hba] at h1
        by_cases hac : a < c
        · simp only [if_pos hac]
        · by_cases hca : c < a
          · simp only [if_neg hac, if_pos hca] at h2
            exact absurd h2 (by simp)
          · have hac' : a = c := le_antisymm (not_lt.1 hca) (not_lt.1 hac)
            subst hac'
            simp only [if_neg hac, if_neg hca] at h2 ⊢
            exact charListLe_trans as bs cs h1 h2

theorem charListLe_iff_not_lt : ∀ {as bs : List Char},
    charListLe as bs = true ↔ ¬ List.lt bs as
  | [], bs => by
    refine iff_of_true ?_ (fun h => nomatch h)
    rw [charListLe]
  | a :: as, [] => by
    rw [charListLe]
    exact iff_of_false (by simp) (fun hn => hn (List.lt.nil a as))
  | a :: as, b :: bs => by
    rw [charListLe]
    by_cases hab : a < b
    · refine iff_of_true (by simp only [if_pos hab]) ?_
      intro h
      cases h with
      | head _ _ hba => exact (lt_asymm hab) hba
      | tail _ h2 _ => exact h2 hab
    · by_cases hba : b < a
      · simp only [if_neg hab, if_pos hba]
        refine iff_of_false (by simp) ?_
        intro hn
        exact hn (List.lt.head _ _ hba)
      · simp only [if_neg hab, if_neg hba]
        rw [@charListLe_iff_not_lt as bs]
        constructor
        · intro hn h
          cases h with
          | head _ _ h => exact hba h
          | tail _ _ h3 => exact hn h3
        · intro hn h
          exact hn (List.lt.tail hba hab h)

theorem strLeB_iff_le {a b : String} : strLeB a b = true ↔ a ≤ b := by
  rw [String.le_iff_toList_le, ← not_lt,
    show strLeB a b = charListLe a.data b.data from rfl,
    charListLe_iff_not_lt]
  exact not_congr (List.lt_iff_lex_lt b.data a.data)

/-! ## Lemmas: the filter predicate -/

theorem lowerStr_eq_empty_iff {s : String} : lowerStr s = "" ↔ s = "" := by
  constructor
  · intro h
    have h2 : s.data.map Char.toLower = ("" : String).data := congrArg String.data h
    have h3 : s.data = [] := List.map_eq_nil_iff.1 h2
    exact String.ext (by rw [h3])
  · rintro rfl
    rfl

theorem filterPred_iff (p : FilterParams) (d : Record) :
    filterPred p d = true ↔ FilterPredSpec p d := by
  have hyear : ((match d.year with
      | some y => !(decide (y < p.yearRange.1) || decide (y > p.yearRange.2))
      | none => true) = true) ↔ (match d.year with
      | some y => p.yearRange.1 ≤ y ∧ y ≤ p.yearRange.2
      | none => True) := by
    cases d.year with
    | none => simp
    | some y =>
      simp only [Bool.not_eq_true', Bool.or_eq_false_iff, decide_eq_false_iff_not,
        not_lt, gt_iff_lt]
  have hguard : ∀ flt v : String,
      ((!(decide (flt ≠ "ALL") && decide (v ≠ flt))) = true) ↔
        (flt ≠ "ALL" → v = flt) := by
    intro flt v
    simp only [Bool.not_eq_true', Bool.and_eq_false_iff, decide_eq_false_iff_not,
      not_not]
    constructor
    · rintro (h | h) hne
      · exact absurd h hne
      · exact h
    · intro h
      by_cases hA : flt = "ALL"
      · exact Or.inl hA
      · exact Or.inr (h hA)
  have hmake : ((!(decide (lowerStr (strTrim p.makeQuery) ≠ "") &&
        !(strIncludes (lowerStr d.make) (lowerStr (strTrim p.makeQuery))))) = true) ↔
      (strTrim p.makeQuery ≠ "" →
        (lowerStr (strTrim p.makeQuery)).data <:+: (lowerStr d.make).data) := by
    simp only [Bool.not_eq_true', Bool.and_eq_false_iff, decide_eq_false_iff_not,
      not_not, Bool.not_eq_false']
    constructor
    · rintro (h | h) hne
      · exact absurd (lowerStr_eq_empty_iff.1 h) hne
      · exact strIncludes_iff.1 h
    · intro h
      by_cases hq : strTrim p.makeQuery = ""
      · exact Or.inl (lowerStr_eq_empty_iff.2 hq)
      · exact Or.inr (strIncludes_iff.2 (h hq))
  simp only [filterPred, FilterPredSpec, Bool.and_eq_true]
  rw [hyear, hguard p.stateFilter d.state, hguard p.typeFilter d.type, hmake]
  tauto

/-! ## Lemmas: summary counters -/

theorem filterMap_filter_comm (f : α → Option β) (q : β → Bool) :
    ∀ l : List α,
      (l.filterMap f).filter q
        = (l.filter fun a => ((f a).map q).getD false).filterMap f
  | [] => rfl
  | a :: l => by
    have ih := filterMap_filter_comm f q l
    cases hfa : f a with
    | none =>
      rw [List.filterMap_cons_none hfa, List.filter_cons]
      simp only [hfa, Option.map_none', Option.getD_none]
      rw [if_neg (by simp)]
      exact ih
    | some b =>
      rw [List.filterMap_cons_some hfa, List.filter_cons, List.filter_cons]
      simp only [hfa, Option.map_some', Option.getD_some]
      by_cases hb : q b
      · rw [if_pos hb, if_pos hb, List.filterMap_cons_some hfa, ih]
      · rw [if_neg hb, if_neg hb, ih]

theorem length_firstDedup_eq_card [DecidableEq α] (l : List α) :
    (firstDedup l).length = l.toFinset.card := by
  rw [← List.toFinset_card_of_nodup (nodup_firstDedup l)]
  congr 1
  ext a
  simp [List.mem_toFinset, mem_firstDedup]

theorem avgRange_cases (data : List Record) :
    (posRanges data = [] → avgRange data = 0) ∧
    (posRanges data ≠ [] →
      avgRange data =
        round (((posRanges data).sum : ℚ) / ((posRanges data).length : ℚ))) := by
  constructor
  · intro h
    simp only [avgRange, h]
    rfl
  · intro h
    have hne : (posRanges data).isEmpty = false := by
      cases hp : posRanges data
      · exact absurd hp h
      · rfl
    simp only [avgRange, hne, Bool.false_eq_true, if_false]
    have hlen : (0 : Int) < ((posRanges data).length : Int) := by
      cases hp : posRanges data
      · exact absurd hp h
      · simp
    rw [roundDiv_eq_round hlen]
    have hc : (((posRanges data).length : Int) : ℚ)
        = ((posRanges data).length : ℚ) := by push_cast; ring
    rw [hc]

theorem cafvPct_cases (data : List Record) :
    (data = [] → cafvPct data = 0) ∧
    (data ≠ [] →
      cafvPct data =
        round ((((data.filter cafvEligible).length : ℚ) / (data.length : ℚ)) * 100)) := by
  constructor
  · rintro rfl
    rfl
  · intro h
    have hlen0 : data.length ≠ 0 := fun hh => h (List.length_eq_zero.1 hh)
    rw [cafvPct, if_neg hlen0]
    have hlen : (0 : Int) < (data.length : Int) := by
      exact_mod_cast Nat.pos_of_ne_zero hlen0
    rw [roundDiv_eq_round hlen]
    congr 1
    push_cast
    ring

/-! # Claim theorems -/

/-- **C1**: for every filter-parameter value, the Working Subset built by the
filtered-set builder is exactly the order-preserving subsequence of the
normalized collection whose members satisfy the specification's Filter
Predicate (present year within the inclusive range, absent year passes;
non-wildcard state and type must match exactly; a non-empty trimmed make
query must occur, lowercased, as a substring of the lowercased make). -/
theorem c1_filteredData_spec (p : FilterParams) (raw : List Record) :
    filteredData p raw = raw.filter (fun d => decide (FilterPredSpec p d)) ∧
      List.Sublist (filteredData p raw) raw := by
  constructor
  · rw [filteredData]
    refine List.filter_congr fun d _ => ?_
    by_cases h : FilterPredSpec p d
    · rw [decide_eq_true h]
      exact (filterPred_iff p d).2 h
    · rw [decide_eq_false h]
      exact Bool.eq_false_iff.2 fun hh => h ((filterPred_iff p d).1 hh)
  · exact List.filter_sublist raw

/-- **C2** counterexample: a source row whose electric-range column holds
`"-5"` — a value that parses to the negative finite number `-5` — is
normalized to a *present* range of `-5`, not to the absent marker, so the
claim's "absent when … negative in the source" clause fails on the code. -/
theorem c2_counterexample :
    jsNumber (some "-5") = some (-5) ∧ (-5 : Int) < 0 ∧
      (parseCsvRow (fun k => if k = "Electric Range" then some "-5" else none)).range
          = some (-5) ∧
      ¬((parseCsvRow (fun k => if k = "Electric Range" then some "-5" else none)).range
          = none) := by
  refine ⟨by decide, by decide, by decide, by decide⟩

/-- **C2** amended: the normalizer is a total function — every raw row yields
a record — and the `range` field is absent exactly when the source value
fails to parse as a finite number; a value that parses (a negative one
included) is kept as-is. Likewise `year` is the parse of its alias chain. -/
theorem c2_normalizer_range (r : RawRow) :
    (parseCsvRow r).range
        = jsNumber (pick r ["Electric Range", "electric_range", "range"]) ∧
      ((parseCsvRow r).range = none ↔
        jsNumber (pick r ["Electric Range", "electric_range", "range"]) = none) ∧
      (parseCsvRow r).year
        = jsNumber (pick r ["Model Year", "model_year", "modelYear"]) :=
  ⟨rfl, Iff.rfl, rfl⟩

/-- **C3**: the Summary Counters view computes: the record count; the number
of distinct non-empty makes; the mean of `range` over exactly the records
whose range is present and strictly positive, rounded to the nearest integer,
`0` when none qualifies; and the rounded percentage of records whose `cafv`
contains `"eligible"` case-insensitively, `0` on the empty subset (the
division-by-zero guard). -/
theorem c3_summary_counters (data : List Record) :
    total data = data.length ∧
    uniqueMakes data
        = ((data.map Record.make).filter (fun s => s != "")).toFinset.card ∧
    posRanges data = (data.filter fun d =>
        ((d.range.map fun r => decide (0 < r)).getD false)).filterMap Record.range ∧
    (posRanges data = [] → avgRange data = 0) ∧
    (posRanges data ≠ [] →
      avgRange data =
        round (((posRanges data).sum : ℚ) / ((posRanges data).length : ℚ))) ∧
    (∀ d : Record, cafvEligible d = true ↔ "eligible".data <:+: (lowerStr d.cafv).data) ∧
    (data = [] → cafvPct data = 0) ∧
    (data ≠ [] →
      cafvPct data =
        round ((((data.filter cafvEligible).length : ℚ) / (data.length : ℚ)) * 100)) :=
  ⟨rfl,
   length_firstDedup_eq_card _,
   filterMap_filter_comm Record.range (fun r => decide (0 < r)) data,
   (avgRange_cases data).1,
   (avgRange_cases data).2,
   fun _ => strIncludes_iff,
   (cafvPct_cases data).1,
   (cafvPct_cases data).2⟩

/-- **C3** witness: on a two-record subset with ranges `45, 45` and one CAFV
match, the rounded mean is `45` and the rounded percentage is `50`. -/
theorem c3_witness :
    avgRange [sampleA, sampleB] =
        round (((posRanges [sampleA, sampleB]).sum : ℚ) /
          ((posRanges [sampleA, sampleB]).length : ℚ)) ∧
    avgRange [sampleA, sampleB] = 45 ∧
    cafvPct [sampleA, sampleB] =
        round (((([sampleA, sampleB].filter cafvEligible).length : ℚ) /
          (([sampleA, sampleB] : List Record).length : ℚ)) * 100) ∧
    cafvPct [sampleA, sampleB] = 50 := by
  obtain ⟨-, -, -, -, h1, -, -, h2⟩ := c3_summary_counters [sampleA, sampleB]
  exact ⟨h1 (by decide), by decide, h2 (by decide), by decide⟩

/-- Totality of the descending-count comparator. -/
theorem leCount_total (a b : α × Nat) : leCount a b = true ∨ leCount b a = true := by
  simp only [leCount, decide_eq_true_eq]
  omega

/-- Transitivity of the descending-count comparator. -/
theorem leCount_trans (a b c : α × Nat) :
    leCount a b = true → leCount b c = true → leCount a c = true := by
  simp only [leCount, decide_eq_true_eq]
  omega

theorem pairwise_desc_sortLe (l : List (α × Nat)) :
    (sortLe leCount l).Pairwise (fun a b : α × Nat => b.2 ≤ a.2) := by
  have h := pairwise_sortLe leCount_total leCount_trans l
  exact h.imp fun hab => by simpa [leCount] using hab

theorem filter_sortLe_count (l : List (α × Nat)) (c : Nat) :
    ((sortLe leCount l).filter fun e => decide (e.2 = c))
      = l.filter fun e => decide (e.2 = c) := by
  refine filter_sortLe (fun a b ha hb => ?_) l
  simp only [decide_eq_true_eq] at ha hb
  simp [leCount, ha, hb]

theorem sumVals_append (l₁ l₂ : List (α × Nat)) :
    sumVals (l₁ ++ l₂) = sumVals l₁ + sumVals l₂ := by
  rw [sumVals, sumVals, sumVals, List.map_append, List.sum_append]

theorem sumVals_perm {l₁ l₂ : List (α × Nat)} (h : List.Perm l₁ l₂) :
    sumVals l₁ = sumVals l₂ :=
  (h.map Prod.snd).sum_eq

/-- **C4**: the Top-Makes Ranking groups the subset by non-empty make (each
entry's value is that make's occurrence count), keeps at most 10 entries,
is sorted non-increasingly by count, and entries with equal counts keep
first-encounter order: for each count, the ranking's entries are a prefix of
the first-encounter-ordered group list restricted to that count. -/
theorem c4_top_makes (data : List Record) :
    (topMakes data).length ≤ 10 ∧
    (topMakes data).Pairwise (fun a b => b.2 ≤ a.2) ∧
    (∀ e ∈ topMakes data,
      e.1 ≠ "" ∧
      e.2 = ((data.map Record.make).filter (fun s => s != "")).count e.1) ∧
    (countByKey ((data.map Record.make).filter (fun s => s != ""))).map Prod.fst
      = firstDedup ((data.map Record.make).filter (fun s => s != "")) ∧
    (∀ c : Nat,
      ((topMakes data).filter fun e => decide (e.2 = c)) <+:
        ((countByKey ((data.map Record.make).filter (fun s => s != ""))).filter
          fun e => decide (e.2 = c))) := by
  refine ⟨List.length_take_le _ _, ?_, ?_, keys_countByKey _, ?_⟩
  · exact List.Pairwise.sublist (List.take_sublist _ _) (pairwise_desc_sortLe _)
  · rintro ⟨k, v⟩ he
    have hmem : (k, v) ∈ sortLe leCount
        (countByKey ((data.map Record.make).filter (fun s => s != ""))) :=
      List.mem_of_mem_take he
    have hck := (perm_sortLe leCount _).subset hmem
    rcases mem_countByKey_iff.1 hck with ⟨hkmem, hv⟩
    refine ⟨?_, hv⟩
    have := (List.mem_filter.1 hkmem).2
    simpa using this
  · intro c
    have h1 := filter_take_isPre (fun e : String × Nat => decide (e.2 = c)) 10
      (sortLe leCount (countByKey ((data.map Record.make).filter (fun s => s != ""))))
    rwa [filter_sortLe_count] at h1

/-- **C4** witness: on a two-record subset, `("Tesla", 1)` is a ranking entry,
its make is non-empty and its count is Tesla's occurrence count. -/
theorem c4_witness :
    ("Tesla" : String) ≠ "" ∧
    (1 : Nat) = (([sampleA, sampleB].map Record.make).filter (fun s => s != "")).count
      "Tesla" :=
  (c4_top_makes [sampleA, sampleB]).2.2.1 ("Tesla", 1) (by decide)

/-- **C5**: the Eligibility Distribution has at most 5 entries whose values
sum to the subset size; its first 4 entries are the top groups of the
count-descending stable sort, each carrying its group's true count; the
synthetic `"Other"` entry is appended last exactly when the remaining groups'
total is positive, and holds that total. -/
theorem c5_cafv_dist (data : List Record) :
    (cafvDist data).length ≤ 5 ∧
    sumVals (cafvDist data) = data.length ∧
    (cafvDist data).take 4
      = (sortLe leCount (countByKey (data.map cafvKey))).take 4 ∧
    ((cafvDist data).take 4).Pairwise (fun a b => b.2 ≤ a.2) ∧
    (∀ e ∈ (cafvDist data).take 4, e.2 = (data.map cafvKey).count e.1) ∧
    (sumVals ((sortLe leCount (countByKey (data.map cafvKey))).drop 4) = 0 →
      cafvDist data = (sortLe leCount (countByKey (data.map cafvKey))).take 4) ∧
    (0 < sumVals ((sortLe leCount (countByKey (data.map cafvKey))).drop 4) →
      (cafvDist data).getLast? =
        some ("Other",
          sumVals ((sortLe leCount (countByKey (data.map cafvKey))).drop 4))) := by
  have hdef : cafvDist data =
      (sortLe leCount (countByKey (data.map cafvKey))).take 4 ++
        (if 0 < sumVals ((sortLe leCount (countByKey (data.map cafvKey))).drop 4)
         then [("Other",
           sumVals ((sortLe leCount (countByKey (data.map cafvKey))).drop 4))]
         else []) := rfl
  have hsplit : sumVals ((sortLe leCount (countByKey (data.map cafvKey))).take 4)
      + sumVals ((sortLe leCount (countByKey (data.map cafvKey))).drop 4)
      = data.length := by
    rw [← sumVals_append, List.take_append_drop,
      sumVals_perm (perm_sortLe leCount _), sumVals_countByKey, List.length_map]
  have htake4 : (cafvDist data).take 4
      = (sortLe leCount (countByKey (data.map cafvKey))).take 4 := by
    by_cases hrest :
        0 < sumVals ((sortLe leCount (countByKey (data.map cafvKey))).drop 4)
    · have hdropne :
          (sortLe leCount (countByKey (data.map cafvKey))).drop 4 ≠ [] := by
        intro hnil
        rw [hnil] at hrest
        simp [sumVals] at hrest
      have hlen : 4 ≤ (sortLe leCount (countByKey (data.map cafvKey))).length := by
        by_contra hlt
        exact hdropne (List.drop_eq_nil_of_le (by omega))
      rw [hdef, if_pos hrest,
        List.take_append_of_le_length (by rw [List.length_take]; omega),
        List.take_take]
      simp
    · rw [hdef, if_neg hrest, List.append_nil, List.take_take]
      simp
  refine ⟨?_, ?_, htake4, ?_, ?_, ?_, ?_⟩
  · rw [hdef, List.length_append]
    have h1 := List.length_take_le 4
      (sortLe leCount (countByKey (data.map cafvKey)))
    by_cases hrest :
        0 < sumVals ((sortLe leCount (countByKey (data.map cafvKey))).drop 4)
    · rw [if_pos hrest]
      simp only [List.length_cons, List.length_nil]
      omega
    · rw [if_neg hrest]
      simp only [List.length_nil]
      omega
  · rw [hdef, sumVals_append]
    by_cases hrest :
        0 < sumVals ((sortLe leCount (countByKey (data.map cafvKey))).drop 4)
    · rw [if_pos hrest]
      have hother : sumVals [("Other",
          sumVals ((sortLe leCount (countByKey (data.map cafvKey))).drop 4))]
          = sumVals ((sortLe leCount (countByKey (data.map cafvKey))).drop 4) := by
        simp [sumVals]
      rw [hother]
      exact hsplit
    · rw [if_neg hrest]
      have hz : sumVals ((sortLe leCount (countByKey (data.map cafvKey))).drop 4)
          = 0 := by omega
      rw [hz] at hsplit
      simpa [sumVals] using hsplit
  · rw [htake4]
    exact List.Pairwise.sublist (List.take_sublist _ _) (pairwise_desc_sortLe _)
  · rintro ⟨k, v⟩ he
    rw [htake4] at he
    have hmem := List.mem_of_mem_take he
    have hck := (perm_sortLe leCount _).subset hmem
    exact (mem_countByKey_iff.1 hck).2
  · intro h0
    rw [hdef, if_neg (by omega), List.append_nil]
  · intro hrest
    rw [hdef, if_pos hrest, List.getLast?_concat]

/-- **C5** witness: a three-record subset with two distinct CAFV groups has no
`"Other"` entry — the distribution equals the sorted group list — and the
`("Unknown", 2)` entry counts its two records. -/
theorem c5_witness :
    cafvDist [sampleA, sampleB, sampleC] =
      (sortLe leCount (countByKey ([sampleA, sampleB, sampleC].map cafvKey))).take 4 ∧
    (2 : Nat) = ([sampleA, sampleB, sampleC].map cafvKey).count "Unknown" := by
  have h := c5_cafv_dist [sampleA, sampleB, sampleC]
  exact ⟨h.2.2.2.2.2.1 (by decide), h.2.2.2.2.1 ("Unknown", 2) (by decide)⟩

/-- **C10**: the Type Distribution assigns every record to exactly one group —
the record's type, or `"Unknown"` for an empty type — so its values sum to the
subset size; its entries appear in first-encounter order of the type keys and
each carries its key's occurrence count. -/
theorem c10_type_dist (data : List Record) :
    sumVals (typeDist data) = data.length ∧
    (typeDist data).map Prod.fst = firstDedup (data.map typeKey) ∧
    (∀ e ∈ typeDist data, e.2 = (data.map typeKey).count e.1) ∧
    (∀ d ∈ data, typeKey d ∈ (typeDist data).map Prod.fst) := by
  refine ⟨?_, keys_countByKey _, ?_, ?_⟩
  · rw [typeDist, sumVals_countByKey, List.length_map]
  · rintro ⟨k, v⟩ he
    exact (mem_countByKey_iff.1 he).2
  · intro d hd
    rw [typeDist, keys_countByKey]
    exact mem_firstDedup.2 (List.mem_map_of_mem _ hd)

/-- **C10** witness: with one empty-type record, the `"Unknown"` group counts
it and the record's key appears among the distribution's groups. -/
theorem c10_witness :
    (1 : Nat) = ([sampleA, sampleB, sampleC].map typeKey).count "Unknown" ∧
    typeKey sampleC ∈ (typeDist [sampleA, sampleB, sampleC]).map Prod.fst := by
  have h := c10_type_dist [sampleA, sampleB, sampleC]
  exact ⟨h.2.2.1 ("Unknown", 1) (by decide), h.2.2.2 sampleC (by decide)⟩

/-- **C6** (amended): the Range Histogram always emits the six bins in fixed
order; it counts exactly the present *non-negative* ranges, so the bin total
is at most the subset size with equality iff every record has a present,
non-negative range (a present negative range falls in no bin); over `[0, ∞)`
the bins are mutually exclusive and collectively exhaustive (every
non-negative value lies in exactly one bin, every negative value in none). -/
theorem c6_range_hist (data : List Record) :
    (rangeHist data).map Prod.fst
      = ["0", "1–50", "51–100", "101–200", "201–300", "301+"] ∧
    sumVals (rangeHist data)
      = ((data.filterMap Record.range).filter fun r => decide (0 ≤ r)).length ∧
    sumVals (rangeHist data) ≤ data.length ∧
    (sumVals (rangeHist data) = data.length ↔
      ∀ d ∈ data, ∃ r, d.range = some r ∧ 0 ≤ r) ∧
    (∀ r : Int, 0 ≤ r → rangeBins.countP (fun b => inBin b r) = 1) ∧
    (∀ r : Int, r < 0 → rangeBins.countP (fun b => inBin b r) = 0) := by
  have hsum := sumVals_rangeHist data
  have hc1 := List.countP_le_length
    (p := fun r : Int => decide (0 ≤ r)) (l := data.filterMap Record.range)
  have hc2 := List.length_filterMap_le Record.range data
  refine ⟨labels_rangeHist data, ?_, ?_, ?_, ?_, ?_⟩
  · rw [hsum, List.countP_eq_length_filter]
  · rw [hsum]
    omega
  · rw [hsum]
    constructor
    · intro heq
      have heq1 : (data.filterMap Record.range).countP (fun r => decide (0 ≤ r))
          = (data.filterMap Record.range).length := by omega
      have heq2 : (data.filterMap Record.range).length = data.length := by omega
      have hall := List.countP_eq_length.1 heq1
      have hpres := length_filterMap_eq_iff.1 heq2
      intro d hd
      rcases hr : d.range with _ | r
      · exact absurd hr (hpres d hd)
      · refine ⟨r, rfl, ?_⟩
        have hrmem : r ∈ data.filterMap Record.range :=
          List.mem_filterMap.2 ⟨d, hd, hr⟩
        simpa using hall r hrmem
    · intro hall
      have hpres : ∀ d ∈ data, Record.range d ≠ none := by
        intro d hd
        rcases hall d hd with ⟨r, hr, _⟩
        simp [hr]
      have heq2 : (data.filterMap Record.range).length = data.length :=
        length_filterMap_eq_iff.2 hpres
      have heq1 : (data.filterMap Record.range).countP (fun r => decide (0 ≤ r))
          = (data.filterMap Record.range).length := by
        rw [List.countP_eq_length]
        intro r hrmem
        rcases List.mem_filterMap.1 hrmem with ⟨d, hd, hr⟩
        rcases hall d hd with ⟨r', hr', hge⟩
        rw [hr] at hr'
        obtain rfl : r = r' := Option.some.inj hr'
        exact decide_eq_true hge
      omega
  · intro r h0
    simp only [rangeBins, inBin, List.countP_cons, List.countP_nil,
      Bool.and_true, Bool.and_eq_true, decide_eq_true_eq]
    split_ifs <;> omega
  · intro r h0
    simp only [rangeBins, inBin, List.countP_cons, List.countP_nil,
      Bool.and_true, Bool.and_eq_true, decide_eq_true_eq]
    split_ifs <;> omega

/-- **C6** counterexample: a one-record subset whose range is present but
negative (`-1`) has every range present, yet the bin total is `0 ≠ 1`, so
"equality iff no record has an absent range" fails on the code as stated. -/
theorem c6_counterexample :
    (∀ d ∈ ([sampleNeg] : List Record), d.range ≠ none) ∧
    sumVals (rangeHist [sampleNeg]) = 0 ∧
    ([sampleNeg] : List Record).length = 1 ∧
    sumVals (rangeHist [sampleNeg]) ≠ ([sampleNeg] : List Record).length := by
  refine ⟨by decide, by decide, by decide, by decide⟩

/-- **C6** witness: `45` lies in exactly one bin, `-1` in none, and the
two-record sample's bin total is `2`. -/
theorem c6_witness :
    rangeBins.countP (fun b => inBin b 45) = 1 ∧
    rangeBins.countP (fun b => inBin b (-1)) = 0 ∧
    sumVals (rangeHist [sampleA, sampleB]) = 2 := by
  have h := c6_range_hist [sampleA, sampleB]
  exact ⟨h.2.2.2.2.1 45 (by decide), h.2.2.2.2.2 (-1) (by decide), by decide⟩

theorem pairwise_asc_byYear (data : List Record) :
    (byYear data).Pairwise (fun a b : Int × Nat => a.1 ≤ b.1) := by
  have htot : ∀ a b : Int × Nat,
      (decide (a.1 ≤ b.1)) = true ∨ (decide (b.1 ≤ a.1)) = true := by
    intro a b
    simp only [decide_eq_true_eq]
    omega
  have htrans : ∀ a b c : Int × Nat,
      (decide (a.1 ≤ b.1)) = true → (decide (b.1 ≤ c.1)) = true →
        (decide (a.1 ≤ c.1)) = true := by
    intro a b c
    simp only [decide_eq_true_eq]
    omega
  have h := pairwise_sortLe htot htrans (countByKey (data.filterMap Record.year))
  exact h.imp fun hab => by simpa using hab

/-- **C7**: the Year Series groups the subset's present years (absent years
excluded) with true per-year counts, sorted ascending by year; its counts sum
to the number of present-year records, which is at most the subset size, with
equality iff no record has an absent year. On the spec's 3-record scenario
with years `{2018, 2020, absent}` and `yearRange = [2018, 2020]`, the series
is `[(2018, 1), (2020, 1)]` while the summary total is `3`. -/
theorem c7_year_series :
    (∀ data : List Record,
      sumVals (byYear data) = (data.filterMap Record.year).length ∧
      (data.filterMap Record.year).length ≤ data.length ∧
      (sumVals (byYear data) = data.length ↔ ∀ d ∈ data, d.year ≠ none) ∧
      (byYear data).Pairwise (fun a b : Int × Nat => a.1 ≤ b.1) ∧
      (∀ e ∈ byYear data,
        e.2 = (data.filterMap Record.year).count e.1 ∧
        ∃ d ∈ data, d.year = some e.1)) ∧
    byYear (filteredData paramsScen [sampleA, sampleB, sampleC])
      = [(2018, 1), (2020, 1)] ∧
    total (filteredData paramsScen [sampleA, sampleB, sampleC]) = 3 := by
  refine ⟨fun data => ?_, by decide, by decide⟩
  have hsum : sumVals (byYear data) = (data.filterMap Record.year).length := by
    rw [byYear, sumVals_perm (perm_sortLe _ _), sumVals_countByKey]
  have hlen := List.length_filterMap_le Record.year data
  refine ⟨hsum, hlen, ?_, pairwise_asc_byYear data, ?_⟩
  · rw [hsum]
    constructor
    · intro h
      exact length_filterMap_eq_iff.1 (by omega)
    · intro h
      rw [length_filterMap_eq_iff.2 h]
  · rintro ⟨y, v⟩ he
    have hck := (perm_sortLe _ _).subset he
    rcases mem_countByKey_iff.1 hck with ⟨hymem, hv⟩
    exact ⟨hv, List.mem_filterMap.1 hymem⟩

/-- **C7** witness: the `(2018, 1)` series entry counts year 2018 once, and on
an all-years-present subset the series counts sum to the subset size. -/
theorem c7_witness :
    (1 : Nat) = ([sampleA, sampleB, sampleC].filterMap Record.year).count 2018 ∧
    sumVals (byYear [sampleA, sampleB]) = ([sampleA, sampleB] : List Record).length := by
  have h := c7_year_series
  have h1 := (h.1 [sampleA, sampleB, sampleC]).2.2.2.2 (2018, 1) (by decide)
  have h2 := (h.1 [sampleA, sampleB]).2.2.1.2 (by decide)
  exact ⟨h1.1, h2⟩

theorem sorted_domain_pairwise (l : List String) :
    (sortLe strLeB l).Pairwise (fun a b : String => a ≤ b) := by
  have htot : ∀ a b : String, strLeB a b = true ∨ strLeB b a = true := fun a b =>
    charListLe_total a.data b.data
  have htrans : ∀ a b c : String,
      strLeB a b = true → strLeB b c = true → strLeB a c = true :=
    fun a b c => charListLe_trans a.data b.data c.data
  exact (pairwise_sortLe htot htrans l).imp fun h => strLeB_iff_le.1 h

theorem mem_sorted_domain (l : List String) (s : String) :
    s ∈ sortLe strLeB (firstDedup (l.filter (fun t => t != ""))) ↔
      s ≠ "" ∧ s ∈ l := by
  rw [(perm_sortLe strLeB _).mem_iff, mem_firstDedup, List.mem_filter]
  simp only [bne_iff_ne, ne_eq]
  tauto

theorem yearBounds_props (raw : List Record) :
    (raw.filterMap Record.year = [] → yearBounds raw = (2010, 2025)) ∧
    (∀ y ∈ raw.filterMap Record.year,
      (yearBounds raw).1 ≤ y ∧ y ≤ (yearBounds raw).2) ∧
    (raw.filterMap Record.year ≠ [] →
      (yearBounds raw).1 ∈ raw.filterMap Record.year ∧
      (yearBounds raw).2 ∈ raw.filterMap Record.year) := by
  cases hys : raw.filterMap Record.year with
  | nil =>
    refine ⟨fun _ => ?_, ?_, fun h => absurd rfl h⟩
    · simp only [yearBounds, hys]
    · intro y hy
      exact absurd hy (List.not_mem_nil y)
  | cons y ys =>
    have hb : yearBounds raw = (ys.foldl min y, ys.foldl max y) := by
      simp only [yearBounds, hys]
    refine ⟨fun h => (List.cons_ne_nil y ys h).elim, ?_, fun _ => ?_⟩
    · intro z hz
      rw [hb]
      rcases List.mem_cons.1 hz with rfl | hz'
      · exact ⟨(foldl_min_le ys z).1, (foldl_max_le ys z).1⟩
      · exact ⟨(foldl_min_le ys y).2 z hz', (foldl_max_le ys y).2 z hz'⟩
    · rw [hb]
      exact ⟨foldl_min_mem ys y, foldl_max_mem ys y⟩

/-- **C8**: the filter domains come from the full unfiltered collection:
`allStates`/`allTypes` are `"ALL"` followed by the distinct non-empty
state/type values sorted ascending; the year bounds are the min/max of the
present years, with the fixed fallback `[2010, 2025]` when no year parses. -/
theorem c8_filter_domains (raw : List Record) :
    ((allStates raw).head? = some "ALL" ∧
     (allStates raw).tail.Pairwise (fun a b : String => a ≤ b) ∧
     (allStates raw).tail.Nodup ∧
     (∀ s, s ∈ (allStates raw).tail ↔ s ≠ "" ∧ s ∈ raw.map Record.state)) ∧
    ((allTypes raw).head? = some "ALL" ∧
     (allTypes raw).tail.Pairwise (fun a b : String => a ≤ b) ∧
     (allTypes raw).tail.Nodup ∧
     (∀ s, s ∈ (allTypes raw).tail ↔ s ≠ "" ∧ s ∈ raw.map Record.type)) ∧
    (raw.filterMap Record.year = [] → yearBounds raw = (2010, 2025)) ∧
    (∀ y ∈ raw.filterMap Record.year,
      (yearBounds raw).1 ≤ y ∧ y ≤ (yearBounds raw).2) ∧
    (raw.filterMap Record.year ≠ [] →
      (yearBounds raw).1 ∈ raw.filterMap Record.year ∧
      (yearBounds raw).2 ∈ raw.filterMap Record.year) := by
  refine ⟨⟨rfl, sorted_domain_pairwise _, ?_, fun s => mem_sorted_domain _ s⟩,
    ⟨rfl, sorted_domain_pairwise _, ?_, fun s => mem_sorted_domain _ s⟩,
    (yearBounds_props raw).1, (yearBounds_props raw).2.1,
    (yearBounds_props raw).2.2⟩
  · exact ((perm_sortLe strLeB _).nodup_iff).2 (nodup_firstDedup _)
  · exact ((perm_sortLe strLeB _).nodup_iff).2 (nodup_firstDedup _)

/-- **C8** witness: on a three-record collection, `"CA"` is a state-domain
entry (non-empty and occurring), and the computed year minimum is a present
year no larger than 2018. -/
theorem c8_witness :
    (("CA" : String) ≠ "" ∧ "CA" ∈ [sampleA, sampleB, sampleC].map Record.state) ∧
    (yearBounds [sampleA, sampleB, sampleC]).1 ∈
      [sampleA, sampleB, sampleC].filterMap Record.year ∧
    (yearBounds [sampleA, sampleB, sampleC]).1 ≤ 2018 := by
  have h := c8_filter_domains [sampleA, sampleB, sampleC]
  refine ⟨(h.1.2.2.2 "CA").1 (by decide), (h.2.2.2.2 (by decide)).1,
    (h.2.2.2.1 2018 (by decide)).1⟩

/-- **C9**: a filter combination whose Working Subset is empty makes every
aggregate view produce its zero/empty output — counters all zero, year
series, top makes, both distributions and the preview empty, all six
histogram bins present with count zero — and nothing fails. -/
theorem c9_empty_views (p : FilterParams) (raw : List Record)
    (h : filteredData p raw = []) :
    total (filteredData p raw) = 0 ∧
    uniqueMakes (filteredData p raw) = 0 ∧
    avgRange (filteredData p raw) = 0 ∧
    cafvPct (filteredData p raw) = 0 ∧
    byYear (filteredData p raw) = [] ∧
    topMakes (filteredData p raw) = [] ∧
    typeDist (filteredData p raw) = [] ∧
    cafvDist (filteredData p raw) = [] ∧
    rangeHist (filteredData p raw) =
      [("0", 0), ("1–50", 0), ("51–100", 0), ("101–200", 0), ("201–300", 0),
       ("301+", 0)] ∧
    previewRows (filteredData p raw) = [] := by
  rw [h]
  exact ⟨rfl, rfl, rfl, rfl, rfl, rfl, rfl, rfl, rfl, rfl⟩

/-- **C9** witness: `stateFilter = "WA"` over a one-record CA dataset gives an
empty subset, and the views are empty/zero there. -/
theorem c9_witness :
    filteredData paramsWA [sampleB] = [] ∧
      total (filteredData paramsWA [sampleB]) = 0 ∧
      byYear (filteredData paramsWA [sampleB]) = [] := by
  have h : filteredData paramsWA [sampleB] = [] := by decide
  have hall := c9_empty_views paramsWA [sampleB] h
  exact ⟨h, hall.1, hall.2.2.2.2.1⟩

end EvDash
